import Mathlib

/-!
Verification development for the outbound-message pipeline of the
tiny_http repository: payload framing encoders, the response-encoder
protocol state machine, compression negotiation, the compressed body
stream, and the encoding interceptor policy.

Rust sources embedded here:
  src/src/codec/body/length_encoder.rs
  src/src/codec/body/payload_encoder.rs
  src/src/codec/response_encoder.rs
  src/crates/web/src/interceptor/encoding/encoder.rs
  src/crates/web/src/request.rs

Bytes are modelled as lists of naturals; buffers (BytesMut) as lists to
which encoders append. Fallible Rust functions returning Result are
modelled with Except. External collaborators whose sources are not in
the repository slice (the chunked encoder, the header serializer, the
micro_http protocol types, the compression algorithm internals) are
modelled from the specification, each marked in its doc comment.
-/

namespace TinyHttp

/-- Byte strings on the wire: a byte is a natural number below 256 in
intent; the encoders never inspect byte values, only lengths. -/
abbrev Bytes := List Nat

/-- Modelled from the spec: IoError is the opaque error produced by a
compression algorithm or a sink. The source uses std io Error; the only
error kind the embedded code constructs itself is InvalidInput. -/
inductive IoError where
  | invalidInput
  | other (code : Nat)
deriving DecidableEq, Repr

/-- Modelled from the spec: PayloadItem is the tagged union
Chunk(byte-sequence) or Eof from micro_http protocol (declared outside
the provided slice, shapes fixed by spec section 3). -/
inductive PayloadItem where
  | Chunk (bytes : Bytes)
  | Eof
deriving DecidableEq, Repr

/-- Mirrors PayloadItem::is_eof used by ResponseEncoder::encode. -/
def PayloadItem.is_eof : PayloadItem → Bool
  | .Chunk _ => false
  | .Eof => true

/-- Modelled from the spec: the Message envelope, a tagged union
Header(H) or Payload(PayloadItem), generic over the header type. -/
inductive Message (H : Type) where
  | Header (h : H)
  | Payload (item : PayloadItem)

/-- Modelled from the spec: PayloadSize, the tagged union
Length(byte-count), Chunked or Empty carried alongside a header. -/
inductive PayloadSize where
  | Length (n : Nat)
  | Chunked
  | Empty
deriving DecidableEq, Repr

/-- Modelled from the spec: SendError, the error type of
ResponseEncoder::encode (micro_http protocol, outside the slice).
The embedded source produces it only by converting an io InvalidInput
error, which the spec taxonomy names ProtocolViolation; other io errors
convert to the Io constructor. -/
inductive SendError where
  | ProtocolViolation
  | Io (e : IoError)
deriving DecidableEq, Repr

/-- LengthEncoder (src/src/codec/body/length_encoder.rs): the
fixed-length framing sub-encoder; the field is the declared length. -/
structure LengthEncoder where
  length : Nat
deriving DecidableEq, Repr

/-- LengthEncoder::encode: with declared length zero every call is a
no-op; otherwise a non-empty chunk is appended verbatim to dst, empty
chunks and Eof write nothing. Returns the delegated result together
with the post-call encoder state and buffer (Rust mutates in place). -/
def LengthEncoder.encode (self : LengthEncoder) (item : PayloadItem) (dst : Bytes) :
    Except IoError Unit × LengthEncoder × Bytes :=
  if self.length = 0 then
    (.ok (), self, dst)
  else
    match item with
    | .Chunk bytes =>
      if bytes.length = 0 then (.ok (), self, dst)
      else (.ok (), self, dst ++ bytes)
    | .Eof => (.ok (), self, dst)

/-- Hex digits of a natural number in ASCII, most significant first,
as Rust formatting with the lower-hex specifier would produce. -/
def hexAscii (n : Nat) : Bytes :=
  (Nat.toDigits 16 n).map Char.toNat

/-- Modelled from the spec: ChunkedEncoder (its source file
chunked_encoder.rs is not in the provided slice). Each non-empty chunk
is wrapped as hex-length CRLF bytes CRLF, a zero-length chunk is
silently dropped, and Eof emits the terminating 0 CRLF CRLF sequence.
The spec gives it no observable state, so it is a unit structure. -/
structure ChunkedEncoder where
deriving DecidableEq, Repr

/-- Modelled from the spec: ChunkedEncoder encode. -/
def ChunkedEncoder.encode (self : ChunkedEncoder) (item : PayloadItem) (dst : Bytes) :
    Except IoError Unit × ChunkedEncoder × Bytes :=
  match item with
  | .Chunk bytes =>
    if bytes.length = 0 then (.ok (), self, dst)
    else (.ok (), self, dst ++ hexAscii bytes.length ++ [13, 10] ++ bytes ++ [13, 10])
  | .Eof => (.ok (), self, dst ++ [48, 13, 10, 13, 10])

/-- Kind (src/src/codec/body/payload_encoder.rs): the three framing
disciplines a PayloadEncoder can own. -/
inductive Kind where
  | Length (e : LengthEncoder)
  | Chunked (e : ChunkedEncoder)
  | NoBody
deriving DecidableEq, Repr

/-- PayloadEncoder (src/src/codec/body/payload_encoder.rs). -/
structure PayloadEncoder where
  kind : Kind
deriving DecidableEq, Repr

/-- PayloadEncoder::empty. -/
def PayloadEncoder.empty : PayloadEncoder := ⟨.NoBody⟩

/-- PayloadEncoder::chunked. -/
def PayloadEncoder.chunked : PayloadEncoder := ⟨.Chunked ⟨⟩⟩

/-- PayloadEncoder::fix_length. -/
def PayloadEncoder.fix_length (size : Nat) : PayloadEncoder := ⟨.Length ⟨size⟩⟩

/-- PayloadEncoder::encode: dispatch on the owned framing kind;
NoBody is a no-op. -/
def PayloadEncoder.encode (self : PayloadEncoder) (item : PayloadItem) (dst : Bytes) :
    Except IoError Unit × PayloadEncoder × Bytes :=
  match self.kind with
  | .Length e =>
    let (r, e2, d2) := e.encode item dst
    (r, ⟨.Length e2⟩, d2)
  | .Chunked e =>
    let (r, e2, d2) := e.encode item dst
    (r, ⟨.Chunked e2⟩, d2)
  | .NoBody => (.ok (), self, dst)

/-- Modelled from the spec: ResponseHead, the opaque header value
handed to the header-serialization collaborator (micro_http protocol,
outside the slice); its contents are never inspected here. -/
structure ResponseHead where
  tag : Nat
deriving DecidableEq, Repr

/-- ResponseEncoder (src/src/codec/response_encoder.rs): the protocol
state machine; payload_encoder is Some while a response body is in
flight (the InPayload state) and None in AwaitingHeader. The header
serialization collaborator (HeaderEncoder, outside the slice, which the
spec leaves unspecified) is passed to encode as the function hEnc
giving the bytes it appends for a given header and payload size. -/
structure ResponseEncoder where
  payload_encoder : Option PayloadEncoder

/-- ResponseEncoder::new. -/
def ResponseEncoder.new : ResponseEncoder := ⟨none⟩

/-- parse_payload_encoder (src/src/codec/response_encoder.rs). -/
def parse_payload_encoder : PayloadSize → PayloadEncoder
  | .Length size => PayloadEncoder.fix_length size
  | .Chunked => PayloadEncoder.chunked
  | .Empty => PayloadEncoder.empty

/-- ResponseEncoder::encode: on Header, fail with the InvalidInput
protocol violation if a payload encoder is already active, otherwise
install the encoder selected from the payload size and delegate to the
header serializer; on Payload, fail if no payload encoder is active,
otherwise delegate to it and, when the item is Eof, drop the payload
encoder regardless of the delegated result. Returns the result with
the post-call machine state and buffer. -/
def ResponseEncoder.encode (hEnc : ResponseHead × PayloadSize → Bytes)
    (self : ResponseEncoder) (item : Message (ResponseHead × PayloadSize)) (dst : Bytes) :
    Except SendError Unit × ResponseEncoder × Bytes :=
  match item with
  | .Header (head, payload_size) =>
    match self.payload_encoder with
    | some _ => (.error .ProtocolViolation, self, dst)
    | none =>
      (.ok (), ⟨some (parse_payload_encoder payload_size)⟩, dst ++ hEnc (head, payload_size))
  | .Payload payload_item =>
    match self.payload_encoder with
    | none => (.error .ProtocolViolation, self, dst)
    | some encoder =>
      let is_eof := payload_item.is_eof
      let (result, encoder2, dst2) := encoder.encode payload_item dst
      let r : Except SendError Unit :=
        match result with
        | .ok () => .ok ()
        | .error e => .error (.Io e)
      (r, ⟨if is_eof then none else some encoder2⟩, dst2)

/-- True when the first list occurs at the head of the second list;
used to express the Rust str contains test. -/
def leadsWith : List Char → List Char → Bool
  | [], _ => true
  | _ :: _, [] => false
  | n :: ns, h :: hs => n == h && leadsWith ns hs

/-- Substring containment on character lists, the semantics of the
Rust str contains method used by Encoder::select. -/
def containsSub (haystack needle : List Char) : Bool :=
  leadsWith needle haystack ||
    match haystack with
    | [] => false
    | _ :: t => containsSub t needle

/-- Rust str contains, lifted to String. -/
def strContains (haystack needle : String) : Bool :=
  containsSub haystack.data needle.data

/-- Encoder (src/crates/web/src/interceptor/encoding/encoder.rs): the
closed variant over the four compression algorithms. The live
algorithm state each variant carries is external library state (flate2,
zstd, brotli), out of scope; only the variant tag is observable to the
embedded policy code. -/
inductive Encoder where
  | Gzip
  | Deflate
  | Zstd
  | Br
deriving DecidableEq, Repr

/-- Encoder::select: substring containment checks against the raw
Accept-Encoding value, tried in the order zstd, br, gzip, deflate. -/
def Encoder.select (accept_encodings : String) : Option Encoder :=
  if strContains accept_encodings "zstd" then some .Zstd
  else if strContains accept_encodings "br" then some .Br
  else if strContains accept_encodings "gzip" then some .Gzip
  else if strContains accept_encodings "deflate" then some .Deflate
  else none

/-- Encoder::name: the canonical Content-Encoding token. -/
def Encoder.name : Encoder → String
  | .Gzip => "gzip"
  | .Deflate => "deflate"
  | .Zstd => "zstd"
  | .Br => "br"

/-- Modelled from the spec: the uniform contract of a live compression
algorithm (write input, drain the output accumulated so far, finish
and emit remaining bytes); the algorithm internals are external codec
libraries treated as an opaque deterministic transition system over a
state type sigma. Write mutates the state even when it fails, matching
the in-place Rust call; finish consumes the state. -/
structure CompModel (σ : Type) where
  write : σ → Bytes → Option IoError × σ
  take : σ → Bytes × σ
  finish : σ → Except IoError Bytes

/-- Modelled from the spec: one outcome of polling the upstream body
(http_body poll_frame): Pending, a data frame, a trailers frame, an
upstream error, or end of stream. -/
inductive UpEvent where
  | pending
  | frameData (bytes : Bytes)
  | frameTrailers
  | frameErr
  | eos
deriving DecidableEq, Repr

/-- The outcome of one poll of EncodedBody: Pending, a data frame,
the invalid-body SendError (trailers or upstream error), an io error
surfaced from the algorithm, end of stream, or the panic of the
unwrap calls (unreachable while the state invariant holds). -/
inductive PollOut where
  | pending
  | frame (bytes : Bytes)
  | errInvalidBody
  | errIo (e : IoError)
  | eos
  | panic
deriving DecidableEq, Repr

/-- EncodedBody (src/crates/web/src/interceptor/encoding/encoder.rs):
inner is the upstream body, modelled as the list of outcomes its
successive polls produce (an exhausted list keeps yielding end of
stream); encoder holds the live algorithm state until finish consumes
it; state is Some until the once-only finish transition takes it. -/
structure EncodedBody (σ : Type) where
  inner : List UpEvent
  encoder : Option σ
  state : Option Bool
deriving DecidableEq, Repr

/-- EncodedBody::new. -/
def EncodedBody.new (inner : List UpEvent) (encoder : σ) : EncodedBody σ :=
  ⟨inner, some encoder, some true⟩

/-- The once-only end-of-stream transition of EncodedBody::poll_frame:
take the state, take the encoder, finish it; yield the final bytes as
a data frame when non-empty, otherwise signal end of stream at once. -/
def finishStep (cm : CompModel σ) (enc : Option σ) (rest : List UpEvent) :
    PollOut × EncodedBody σ :=
  match enc with
  | none => (.panic, ⟨rest, none, none⟩)
  | some s =>
    match cm.finish s with
    | .error e => (.errIo e, ⟨rest, none, none⟩)
    | .ok bytes =>
      if bytes.isEmpty then (.eos, ⟨rest, none, none⟩)
      else (.frame bytes, ⟨rest, none, none⟩)

/-- The loop of EncodedBody::poll_frame, entered with state Some st:
each iteration consumes one upstream poll outcome; a data frame is fed
to the algorithm and the drained output yielded unless empty, in which
case the loop pulls the next upstream frame; trailers and upstream
errors return the invalid-body error at once. -/
def pollLoop (cm : CompModel σ) (st : Bool) :
    List UpEvent → Option σ → PollOut × EncodedBody σ
  | [], enc => finishStep cm enc []
  | .eos :: rest, enc => finishStep cm enc rest
  | .pending :: rest, enc => (.pending, ⟨rest, enc, some st⟩)
  | .frameTrailers :: rest, enc => (.errInvalidBody, ⟨rest, enc, some st⟩)
  | .frameErr :: rest, enc => (.errInvalidBody, ⟨rest, enc, some st⟩)
  | .frameData bytes :: rest, enc =>
    match enc with
    | none => (.panic, ⟨rest, none, some st⟩)
    | some s =>
      match cm.write s bytes with
      | (some e, s2) => (.errIo e, ⟨rest, some s2, some st⟩)
      | (none, s2) =>
        let (out, s3) := cm.take s2
        if out.isEmpty then pollLoop cm st rest (some s3)
        else (.frame out, ⟨rest, some s3, some st⟩)

/-- EncodedBody::poll_frame: a completed stream (state None) reports
end of stream immediately without touching the upstream body or the
algorithm; otherwise run the pull-and-write loop. -/
def EncodedBody.poll_frame (cm : CompModel σ) (eb : EncodedBody σ) :
    PollOut × EncodedBody σ :=
  match eb.state with
  | none => (.eos, eb)
  | some st => pollLoop cm st eb.inner eb.encoder

/-- The outcomes of n successive polls of an EncodedBody. -/
def pollMany (cm : CompModel σ) (eb : EncodedBody σ) : Nat → List PollOut
  | 0 => []
  | n + 1 =>
    let (out, eb2) := eb.poll_frame cm
    out :: pollMany cm eb2 n

/-- Header names used by the interceptor; Other covers the rest of the
header space. Boundary model of the http crate header names. -/
inductive HName where
  | ContentEncoding
  | AcceptEncoding
  | ContentLength
  | Other (s : String)
deriving DecidableEq, Repr

/-- A header value as the http crate stores it: either representable
as text or opaque bytes whose to_str conversion fails. Boundary model
of http HeaderValue. -/
inductive HeaderValue where
  | text (s : String)
  | bin (bytes : Bytes)
deriving DecidableEq, Repr

/-- HeaderValue::to_str. -/
def HeaderValue.to_str : HeaderValue → Option String
  | .text s => some s
  | .bin _ => none

/-- Boundary model of http HeaderMap: an ordered multimap. -/
structure HeaderMap where
  entries : List (HName × HeaderValue)
deriving DecidableEq, Repr

/-- HeaderMap::contains_key. -/
def HeaderMap.containsKey (m : HeaderMap) (k : HName) : Bool :=
  m.entries.any (fun e => e.1 == k)

/-- HeaderMap::get: the first value under the key. -/
def HeaderMap.getKey (m : HeaderMap) (k : HName) : Option HeaderValue :=
  (m.entries.find? (fun e => e.1 == k)).map (fun e => e.2)

/-- HeaderMap::remove: drop every value under the key. -/
def HeaderMap.removeKey (m : HeaderMap) (k : HName) : HeaderMap :=
  ⟨m.entries.filter (fun e => e.1 != k)⟩

/-- HeaderMap::append: add a value after the existing ones. -/
def HeaderMap.appendKey (m : HeaderMap) (k : HName) (v : HeaderValue) : HeaderMap :=
  ⟨m.entries ++ [(k, v)]⟩

/-- RequestContext (src/crates/web/src/request.rs): only its headers
view is consulted by the interceptor. -/
structure RequestContext where
  headers : HeaderMap
deriving DecidableEq, Repr

/-- Modelled from the spec: ResponseBody (crates/web body module,
outside the slice), the capability object the interceptor replaces: a
concrete body with its emptiness flag and optional upper size bound
(size_hint upper), or the streaming wrapper installed at most once,
recorded with the chosen algorithm and the original body it owns.
Emptiness of the wrapper delegates to the wrapped body, matching the
is_end_stream delegation; the compressed size bound is unknown. -/
inductive RespBody where
  | base (isEmpty : Bool) (upper : Option Nat)
  | encodedStream (alg : Encoder) (inner : RespBody)
deriving DecidableEq, Repr

/-- ResponseBody::is_empty. -/
def RespBody.is_empty : RespBody → Bool
  | .base e _ => e
  | .encodedStream _ inner => inner.is_empty

/-- ResponseBody size_hint upper bound. -/
def RespBody.size_upper : RespBody → Option Nat
  | .base _ u => u
  | .encodedStream _ _ => none

/-- Boundary model of http Response as the interceptor sees it:
status code as a natural number (NO_CONTENT is 204,
SWITCHING_PROTOCOLS is 101), headers and body. -/
structure Response where
  status : Nat
  headers : HeaderMap
  body : RespBody
deriving DecidableEq, Repr

/-- EncodeInterceptor::on_response
(src/crates/web/src/interceptor/encoding/encoder.rs lines 241 to 293):
skip on status 204 or 101; skip when the REQUEST headers contain
Content-Encoding (the source consults req headers here, under the
comment saying the response has already been encoded); skip when the
request carries no Accept-Encoding, its value is not text, or no
algorithm matches; skip when the body is empty or its known upper size
bound is at most 1024; otherwise wrap the body in the compressed
stream, remove Content-Length and append Content-Encoding. -/
def EncodeInterceptor.on_response (req : RequestContext) (resp : Response) : Response :=
  if resp.status == 204 || resp.status == 101 then resp
  else if req.headers.containsKey .ContentEncoding then resp
  else
    match req.headers.getKey .AcceptEncoding with
    | none => resp
    | some possible =>
      match possible.to_str with
      | none => resp
      | some accept_encodings =>
        match Encoder.select accept_encodings with
        | none => resp
        | some encoder =>
          if resp.body.is_empty then resp
          else if (match resp.body.size_upper with
                   | some upper => decide (upper ≤ 1024)
                   | none => false) then resp
          else
            { status := resp.status
              headers :=
                (resp.headers.removeKey .ContentLength).appendKey
                  .ContentEncoding (.text encoder.name)
              body := .encodedStream encoder resp.body }

/-- Helper: LengthEncoder::encode never fails. -/
theorem lengthEncode_ok (e : LengthEncoder) (item : PayloadItem) (dst : Bytes) :
    (e.encode item dst).1 = .ok () := by
  unfold LengthEncoder.encode
  split
  · rfl
  · cases item with
    | Chunk bytes =>
      dsimp only
      split <;> rfl
    | Eof => rfl

/-- Helper: ChunkedEncoder::encode never fails. -/
theorem chunkedEncode_ok (e : ChunkedEncoder) (item : PayloadItem) (dst : Bytes) :
    (e.encode item dst).1 = .ok () := by
  cases item with
  | Chunk bytes =>
    unfold ChunkedEncoder.encode
    dsimp only
    split <;> rfl
  | Eof => rfl

/-- Helper: PayloadEncoder::encode never fails, in any framing mode. -/
theorem payloadEncode_ok (pe : PayloadEncoder) (item : PayloadItem) (dst : Bytes) :
    (pe.encode item dst).1 = .ok () := by
  rcases pe with ⟨k⟩
  cases k with
  | Length e =>
    have h := lengthEncode_ok e item dst
    rcases he : e.encode item dst with ⟨r, e2, d2⟩
    rw [he] at h
    simp [PayloadEncoder.encode, he, h]
  | Chunked e =>
    have h := chunkedEncode_ok e item dst
    rcases he : e.encode item dst with ⟨r, e2, d2⟩
    rw [he] at h
    simp [PayloadEncoder.encode, he, h]
  | NoBody => rfl

/-- Claim C7: for the fixed-length payload encoder, declared length
zero makes every encode call (non-empty chunks and Eof included) write
nothing and return Ok; for a positive declared length a non-empty
chunk is appended verbatim with no framing markers while empty chunks
and Eof write nothing; the statement quantifies over chunks of every
size independent of the declared length, so bytes written are never
reconciled against it. -/
theorem claim_C7_fixed_length_passthrough :
    (∀ (item : PayloadItem) (dst : Bytes),
        (LengthEncoder.mk 0).encode item dst = (.ok (), LengthEncoder.mk 0, dst)) ∧
    (∀ (n : Nat), 0 < n → ∀ (bytes dst : Bytes), bytes ≠ [] →
        (LengthEncoder.mk n).encode (.Chunk bytes) dst =
          (.ok (), LengthEncoder.mk n, dst ++ bytes)) ∧
    (∀ (n : Nat), 0 < n → ∀ (dst : Bytes),
        (LengthEncoder.mk n).encode (.Chunk []) dst = (.ok (), LengthEncoder.mk n, dst) ∧
        (LengthEncoder.mk n).encode .Eof dst = (.ok (), LengthEncoder.mk n, dst)) := by
  refine ⟨?_, ?_, ?_⟩
  · intro item dst
    cases item <;> simp [LengthEncoder.encode]
  · intro n hn bytes dst hb
    simp [LengthEncoder.encode, Nat.pos_iff_ne_zero.mp hn, List.length_eq_zero, hb]
  · intro n hn dst
    constructor <;> simp [LengthEncoder.encode, Nat.pos_iff_ne_zero.mp hn]

/-- Witness for claim C7: declared length zero swallows a non-empty
chunk; declared length two passes a three-byte chunk through verbatim,
unreconciled. -/
theorem claim_C7_fixed_length_passthrough_witness :
    (LengthEncoder.mk 0).encode (.Chunk [7]) [] = (.ok (), LengthEncoder.mk 0, []) ∧
    (LengthEncoder.mk 2).encode (.Chunk [7, 8, 9]) [1] =
      (.ok (), LengthEncoder.mk 2, [1, 7, 8, 9]) :=
  ⟨claim_C7_fixed_length_passthrough.1 (.Chunk [7]) [],
   claim_C7_fixed_length_passthrough.2.1 2 (by decide) [7, 8, 9] [1] (by decide)⟩

/-- Claim C5: Encoder::select chooses by substring containment with
preference zstd over br over gzip over deflate, returns none when no
token occurs, and on the concrete spec examples picks zstd from
"gzip, br, zstd" and gzip from "gzip, deflate". -/
theorem claim_C5_select_preference :
    (∀ s : String, strContains s "zstd" = true → Encoder.select s = some .Zstd) ∧
    (∀ s : String, strContains s "zstd" = false → strContains s "br" = true →
        Encoder.select s = some .Br) ∧
    (∀ s : String, strContains s "zstd" = false → strContains s "br" = false →
        strContains s "gzip" = true → Encoder.select s = some .Gzip) ∧
    (∀ s : String, strContains s "zstd" = false → strContains s "br" = false →
        strContains s "gzip" = false → strContains s "deflate" = true →
        Encoder.select s = some .Deflate) ∧
    (∀ s : String, strContains s "zstd" = false → strContains s "br" = false →
        strContains s "gzip" = false → strContains s "deflate" = false →
        Encoder.select s = none) ∧
    Encoder.select "gzip, br, zstd" = some .Zstd ∧
    Encoder.select "gzip, deflate" = some .Gzip := by
  refine ⟨?_, ?_, ?_, ?_, ?_, by decide, by decide⟩
  · intro s h1
    simp [Encoder.select, h1]
  · intro s h1 h2
    simp [Encoder.select, h1, h2]
  · intro s h1 h2 h3
    simp [Encoder.select, h1, h2, h3]
  · intro s h1 h2 h3 h4
    simp [Encoder.select, h1, h2, h3, h4]
  · intro s h1 h2 h3 h4
    simp [Encoder.select, h1, h2, h3, h4]

/-- Witness for claim C5: a value containing both gzip and zstd
selects zstd, and a value with none of the tokens selects nothing. -/
theorem claim_C5_select_preference_witness :
    Encoder.select "zstd, gzip" = some .Zstd ∧ Encoder.select "identity" = none :=
  ⟨claim_C5_select_preference.1 "zstd, gzip" (by decide),
   claim_C5_select_preference.2.2.2.2.1 "identity"
     (by decide) (by decide) (by decide) (by decide)⟩

/-- Claim C3: a Payload submitted in AwaitingHeader and a Header
submitted while a payload encoder is active both yield the protocol
violation error; in the two remaining orderings (Header while
awaiting, Payload while active) the checks do not fire and the call
returns Ok. -/
theorem claim_C3_ordering_checks :
    ∀ (hEnc : ResponseHead × PayloadSize → Bytes) (dst : Bytes),
    (∀ (item : PayloadItem),
        (ResponseEncoder.mk none).encode hEnc (.Payload item) dst =
          (.error .ProtocolViolation, ResponseEncoder.mk none, dst)) ∧
    (∀ (pe : PayloadEncoder) (h : ResponseHead × PayloadSize),
        (ResponseEncoder.mk (some pe)).encode hEnc (.Header h) dst =
          (.error .ProtocolViolation, ResponseEncoder.mk (some pe), dst)) ∧
    (∀ (h : ResponseHead × PayloadSize),
        ((ResponseEncoder.mk none).encode hEnc (.Header h) dst).1 = .ok ()) ∧
    (∀ (pe : PayloadEncoder) (item : PayloadItem),
        ((ResponseEncoder.mk (some pe)).encode hEnc (.Payload item) dst).1 = .ok ()) := by
  intro hEnc dst
  refine ⟨?_, ?_, ?_, ?_⟩
  · intro item
    rfl
  · intro pe h
    rfl
  · intro h
    rfl
  · intro pe item
    have hok := payloadEncode_ok pe item dst
    rcases he : pe.encode item dst with ⟨r, e2, d2⟩
    rw [he] at hok
    simp at hok
    simp [ResponseEncoder.encode, he, hok]

/-- Claim C2: encoding Payload Eof while a payload encoder is active
removes it, returning the machine to AwaitingHeader (the reset in the
source happens after the delegated encode and does not consult its
result; in this embedding the delegated encoders are total, so the
failing branch is vacuous), and a Header submitted next is accepted
with an Ok result. -/
theorem claim_C2_eof_returns_to_awaiting_header :
    ∀ (hEnc : ResponseHead × PayloadSize → Bytes) (pe : PayloadEncoder) (dst : Bytes),
      ((ResponseEncoder.mk (some pe)).encode hEnc (.Payload .Eof) dst).2.1 =
        ResponseEncoder.mk none ∧
      ∀ (h : ResponseHead × PayloadSize) (dst2 : Bytes),
        ((((ResponseEncoder.mk (some pe)).encode hEnc (.Payload .Eof) dst).2.1).encode
            hEnc (.Header h) dst2).1 = .ok () := by
  intro hEnc pe dst
  rcases he : pe.encode .Eof dst with ⟨r, e2, d2⟩
  constructor
  · simp [ResponseEncoder.encode, PayloadItem.is_eof, he]
  · intro h dst2
    simp [ResponseEncoder.encode, PayloadItem.is_eof, he]

/-- Claim C10: whenever ResponseEncoder::encode returns the
out-of-order protocol violation, the machine state and the output
buffer it returns are exactly the ones passed in: a rejected Header
leaves the active payload encoder installed, a rejected Payload leaves
the machine awaiting a header, and no bytes are appended. -/
theorem claim_C10_rejection_preserves_state :
    ∀ (hEnc : ResponseHead × PayloadSize → Bytes) (st : ResponseEncoder)
      (item : Message (ResponseHead × PayloadSize)) (dst : Bytes)
      (r : Except SendError Unit) (st2 : ResponseEncoder) (dst2 : Bytes),
      st.encode hEnc item dst = (r, st2, dst2) →
      r = .error .ProtocolViolation →
      st2 = st ∧ dst2 = dst := by
  intro hEnc st item dst r st2 dst2 henc hr
  subst hr
  rcases st with ⟨pe⟩
  cases item with
  | Header h =>
    cases pe with
    | none =>
      simp [ResponseEncoder.encode] at henc
    | some p =>
      rw [show ResponseEncoder.encode hEnc ⟨some p⟩ (.Header h) dst =
            (.error .ProtocolViolation, ⟨some p⟩, dst) from rfl] at henc
      obtain ⟨h1, h2⟩ := Prod.mk.injEq _ _ _ _ ▸ henc
      obtain ⟨h3, h4⟩ := Prod.mk.injEq _ _ _ _ ▸ h2
      exact ⟨h3.symm, h4.symm⟩
  | Payload item =>
    cases pe with
    | none =>
      rw [show ResponseEncoder.encode hEnc ⟨none⟩ (.Payload item) dst =
            (.error .ProtocolViolation, ⟨none⟩, dst) from rfl] at henc
      obtain ⟨h1, h2⟩ := Prod.mk.injEq _ _ _ _ ▸ henc
      obtain ⟨h3, h4⟩ := Prod.mk.injEq _ _ _ _ ▸ h2
      exact ⟨h3.symm, h4.symm⟩
    | some p =>
      have hok := payloadEncode_ok p item dst
      rcases he : p.encode item dst with ⟨rr, e2, d2⟩
      rw [he] at hok
      simp at hok
      subst hok
      simp [ResponseEncoder.encode, he] at henc

/-- Witness for claim C10: a Payload rejected in AwaitingHeader leaves
the machine and the buffer untouched. -/
theorem claim_C10_rejection_preserves_state_witness :
    ResponseEncoder.mk none = ResponseEncoder.mk none ∧ ([2] : Bytes) = [2] :=
  claim_C10_rejection_preserves_state (fun _ => []) (ResponseEncoder.mk none)
    (.Payload (.Chunk [1])) [2] (.error .ProtocolViolation)
    (ResponseEncoder.mk none) [2] rfl rfl

/-- Helper: a completed EncodedBody (state taken) polls to end of
stream and is left unchanged. -/
theorem poll_frame_done {σ : Type} (cm : CompModel σ) (eb : EncodedBody σ)
    (h : eb.state = none) : eb.poll_frame cm = (.eos, eb) := by
  unfold EncodedBody.poll_frame
  rw [h]

/-- Helper: finishStep never yields an empty data frame. -/
theorem finishStep_no_empty_frame {σ : Type} (cm : CompModel σ) (enc : Option σ)
    (rest : List UpEvent) : (finishStep cm enc rest).1 ≠ .frame [] := by
  cases enc with
  | none => simp [finishStep]
  | some s =>
    unfold finishStep
    cases hf : cm.finish s with
    | error e => simp [hf]
    | ok bytes =>
      cases bytes with
      | nil => simp [hf]
      | cons b bs => simp [hf, List.isEmpty]

/-- Helper: the poll loop never yields an empty data frame. -/
theorem pollLoop_no_empty_frame {σ : Type} (cm : CompModel σ) (st : Bool) :
    ∀ (events : List UpEvent) (enc : Option σ),
      (pollLoop cm st events enc).1 ≠ .frame [] := by
  intro events
  induction events with
  | nil => intro enc; exact finishStep_no_empty_frame cm enc []
  | cons ev rest ih =>
    intro enc
    cases ev with
    | pending => simp [pollLoop]
    | frameTrailers => simp [pollLoop]
    | frameErr => simp [pollLoop]
    | eos => exact finishStep_no_empty_frame cm enc rest
    | frameData bytes =>
      cases enc with
      | none => simp [pollLoop]
      | some s =>
        unfold pollLoop
        cases hw : cm.write s bytes with
        | mk oe s2 =>
          cases oe with
          | some e => simp [hw]
          | none =>
            cases ht : cm.take s2 with
            | mk out s3 =>
              cases out with
              | nil => simpa [hw, ht] using ih (some s3)
              | cons b bs => simp [hw, ht, List.isEmpty]

/-- Claim C4: once a compressed body stream has completed (its state
slot is taken), every further poll reports end of stream and leaves the
stream unchanged, and the sequence of poll outcomes is independent of
the compression model entirely, so in particular the finish step of the
algorithm is never re-invoked; finish can only run in a poll whose
starting state slot is still occupied, which the completing transition
empties, so it runs exactly once over a completed lifetime. -/
theorem claim_C4_finish_once {σ : Type} (cm cm2 : CompModel σ) (eb : EncodedBody σ)
    (n : Nat) (h : eb.state = none) :
    pollMany cm eb n = List.replicate n .eos ∧ pollMany cm eb n = pollMany cm2 eb n := by
  constructor
  · induction n with
    | zero => rfl
    | succ k ih => simp [pollMany, poll_frame_done cm eb h, ih, List.replicate]
  · induction n with
    | zero => rfl
    | succ k ih => simp [pollMany, poll_frame_done cm eb h, poll_frame_done cm2 eb h, ih]

/-- A concrete compression model over Nat states: write adds the input
length to the state, draining yields nothing, finish yields nothing. -/
def silentModel : CompModel Nat :=
  ⟨fun s b => (none, s + b.length), fun s => ([], s), fun _ => .ok []⟩

/-- A second concrete compression model, distinguishable from
silentModel: finish yields one byte. -/
def loudModel : CompModel Nat :=
  ⟨fun s b => (none, s + b.length), fun s => ([], s), fun _ => .ok [9]⟩

/-- Witness for claim C4: three polls of a completed stream all report
end of stream, under either concrete compression model. -/
theorem claim_C4_finish_once_witness :
    pollMany silentModel (⟨[], none, none⟩ : EncodedBody Nat) 3 = List.replicate 3 .eos ∧
    pollMany silentModel (⟨[], none, none⟩ : EncodedBody Nat) 3 =
      pollMany loudModel (⟨[], none, none⟩ : EncodedBody Nat) 3 :=
  claim_C4_finish_once silentModel loudModel ⟨[], none, none⟩ 3 rfl

/-- Claim C8: a poll of the compressed body stream never yields an
empty data frame; when a write drains no output the loop pulls the
next upstream frame instead of yielding, and an empty finish result at
end of stream signals end of stream immediately. -/
theorem claim_C8_never_empty_frame (σ : Type) :
    (∀ (cm : CompModel σ) (eb : EncodedBody σ), (eb.poll_frame cm).1 ≠ .frame []) ∧
    (∀ (cm : CompModel σ) (st : Bool) (bytes : Bytes) (rest : List UpEvent) (s s2 s3 : σ),
        cm.write s bytes = (none, s2) → cm.take s2 = ([], s3) →
        pollLoop cm st (.frameData bytes :: rest) (some s) = pollLoop cm st rest (some s3)) ∧
    (∀ (cm : CompModel σ) (st : Bool) (s : σ) (rest : List UpEvent),
        cm.finish s = .ok [] →
        EncodedBody.poll_frame cm ⟨.eos :: rest, some s, some st⟩ =
          (.eos, ⟨rest, none, none⟩)) := by
  refine ⟨?_, ?_, ?_⟩
  · intro cm eb
    unfold EncodedBody.poll_frame
    cases h : eb.state with
    | none => simp
    | some st => exact pollLoop_no_empty_frame cm st eb.inner eb.encoder
  · intro cm st bytes rest s s2 s3 hw ht
    simp only [pollLoop]
    simp [hw, ht]
  · intro cm st s rest hf
    simp only [EncodedBody.poll_frame, pollLoop, finishStep]
    simp [hf]

/-- Witness for claim C8: the silent model drains nothing, so a data
frame makes the loop continue, and its empty finish result makes end
of stream immediate. -/
theorem claim_C8_never_empty_frame_witness :
    pollLoop silentModel true [.frameData [5]] (some 0) =
      pollLoop silentModel true [] (some 1) ∧
    EncodedBody.poll_frame silentModel ⟨[.eos], some 0, some true⟩ =
      (.eos, ⟨[], none, none⟩) :=
  ⟨(claim_C8_never_empty_frame Nat).2.1 silentModel true [5] [] 0 1 1 rfl rfl,
   (claim_C8_never_empty_frame Nat).2.2 silentModel true 0 [] rfl⟩

/-- Claim C9: when the next upstream outcome is a trailers frame or an
upstream error, the poll returns the invalid-body error at once with
the encoder slot unchanged, and the poll result is independent of the
compression model, so the frame is never fed to the algorithm and
finish is never invoked on that poll. -/
theorem claim_C9_trailers_and_errors (σ : Type) :
    ∀ (cm cm2 : CompModel σ) (eb : EncodedBody σ) (st : Bool) (rest : List UpEvent),
      eb.state = some st →
      (eb.inner = .frameTrailers :: rest →
          eb.poll_frame cm = (.errInvalidBody, ⟨rest, eb.encoder, some st⟩) ∧
          eb.poll_frame cm = eb.poll_frame cm2) ∧
      (eb.inner = .frameErr :: rest →
          eb.poll_frame cm = (.errInvalidBody, ⟨rest, eb.encoder, some st⟩) ∧
          eb.poll_frame cm = eb.poll_frame cm2) := by
  intro cm cm2 eb st rest hst
  constructor
  · intro hin
    unfold EncodedBody.poll_frame
    rw [hst, hin]
    exact ⟨rfl, rfl⟩
  · intro hin
    unfold EncodedBody.poll_frame
    rw [hst, hin]
    exact ⟨rfl, rfl⟩

/-- Witness for claim C9: a trailers frame at the head of the upstream
yields the invalid-body error under either concrete model. -/
theorem claim_C9_trailers_and_errors_witness :
    EncodedBody.poll_frame silentModel
        (⟨[.frameTrailers], some 0, some true⟩ : EncodedBody Nat) =
      (.errInvalidBody, ⟨[], some 0, some true⟩) ∧
    EncodedBody.poll_frame silentModel
        (⟨[.frameTrailers], some 0, some true⟩ : EncodedBody Nat) =
      EncodedBody.poll_frame loudModel ⟨[.frameTrailers], some 0, some true⟩ :=
  ((claim_C9_trailers_and_errors Nat) silentModel loudModel
      ⟨[.frameTrailers], some 0, some true⟩ true [] rfl).1 rfl

/-- Claim C1 evidence: the source checks the REQUEST headers for
Content-Encoding (encoder.rs line 248) although its own comment and
the spec call for the response headers, so a response that already
carries Content-Encoding is compressed again: here the interceptor
wraps the body and appends a second Content-Encoding header. -/
theorem claim_C1_code_divergence :
    EncodeInterceptor.on_response
        ⟨⟨[(.AcceptEncoding, .text "gzip")]⟩⟩
        ⟨200, ⟨[(.ContentEncoding, .text "gzip")]⟩, .base false none⟩ =
      ⟨200, ⟨[(.ContentEncoding, .text "gzip"), (.ContentEncoding, .text "gzip")]⟩,
        .encodedStream .Gzip (.base false none)⟩ := by
  rfl

/-- Claim C6: a response whose body declares an upper size bound of at
most 1024 bytes is never modified by the interceptor, and with every
other condition permitting (status not 204 or 101, no Content-Encoding
on the request, a textual Accept-Encoding selecting an algorithm, a
non-empty body) an upper bound of 1025 gets the body wrapped,
Content-Length removed and Content-Encoding appended. -/
theorem claim_C6_size_threshold :
    (∀ (req : RequestContext) (resp : Response) (u : Nat),
        resp.body.size_upper = some u → u ≤ 1024 →
        EncodeInterceptor.on_response req resp = resp) ∧
    (∀ (req : RequestContext) (resp : Response) (v : HeaderValue) (a : String)
        (enc : Encoder),
        resp.status ≠ 204 → resp.status ≠ 101 →
        req.headers.containsKey .ContentEncoding = false →
        req.headers.getKey .AcceptEncoding = some v →
        v.to_str = some a →
        Encoder.select a = some enc →
        resp.body.is_empty = false →
        resp.body.size_upper = some 1025 →
        EncodeInterceptor.on_response req resp =
          { status := resp.status
            headers := (resp.headers.removeKey .ContentLength).appendKey
                         .ContentEncoding (.text enc.name)
            body := .encodedStream enc resp.body }) := by
  constructor
  · intro req resp u hu hle
    unfold EncodeInterceptor.on_response
    split
    · rfl
    · split
      · rfl
      · split
        · rfl
        · split
          · rfl
          · split
            · rfl
            · split
              · rfl
              · rw [hu]
                simp [hle]
  · intro req resp v a enc h204 h101 hce hae hts hsel hne hupper
    simp [EncodeInterceptor.on_response, h204, h101, hce, hae, hts, hsel, hne, hupper]

/-- Witness for claim C6: a 1024-byte bound is skipped, a 1025-byte
bound is compressed. -/
theorem claim_C6_size_threshold_witness :
    EncodeInterceptor.on_response ⟨⟨[(.AcceptEncoding, .text "gzip")]⟩⟩
        ⟨200, ⟨[]⟩, .base false (some 1024)⟩ =
      ⟨200, ⟨[]⟩, .base false (some 1024)⟩ ∧
    EncodeInterceptor.on_response ⟨⟨[(.AcceptEncoding, .text "gzip")]⟩⟩
        ⟨200, ⟨[]⟩, .base false (some 1025)⟩ =
      ⟨200, ⟨[(.ContentEncoding, .text "gzip")]⟩,
        .encodedStream .Gzip (.base false (some 1025))⟩ :=
  ⟨claim_C6_size_threshold.1 ⟨⟨[(.AcceptEncoding, .text "gzip")]⟩⟩
      ⟨200, ⟨[]⟩, .base false (some 1024)⟩ 1024 rfl (by decide),
   claim_C6_size_threshold.2 ⟨⟨[(.AcceptEncoding, .text "gzip")]⟩⟩
      ⟨200, ⟨[]⟩, .base false (some 1025)⟩ (.text "gzip") "gzip" .Gzip
      (by decide) (by decide) rfl rfl rfl rfl rfl rfl⟩

end TinyHttp
